import Mathlib

/-!
Shallow embedding of `src/main.rs` of the `tpart` particle visualizer.

Rust `f32` arithmetic is modelled over the exact reals `ℝ`; `f32::powf` is
modelled by `Real.rpow` and `f32::sqrt` by `Real.sqrt`.  Rust numeric casts
that the code only applies to non-negative, in-range values (`as u16`,
`as u8`, `as usize`, which truncate toward zero and saturate) are modelled
with `Nat.floor` of the clamped value.  The random generator and the wall
clock are external collaborators and enter the model as explicit parameters.
-/

namespace TPart

/-- Constant `DENSITY` from src/main.rs line 22. -/
def DENSITY : ℝ := 0.15

/-- Constant `GRAVITY_STRENGTH` from src/main.rs line 23. -/
def GRAVITY_STRENGTH : ℝ := 1.2

/-- Constant `FRICTION_PER_SECOND` from src/main.rs line 24. -/
def FRICTION_PER_SECOND : ℝ := 0.7

/-- Constant `UPPER_BLOCK` from src/main.rs line 25 (the half-block glyph). -/
def UPPER_BLOCK : String := "▀"

/-- `struct Particle` from src/main.rs lines 27-32. -/
structure Particle where
  x : ℝ
  y : ℝ
  dx : ℝ
  dy : ℝ

/-- `struct Mouse` from src/main.rs lines 34-38 (the attractor point). -/
structure Mouse where
  x : ℝ
  y : ℝ

/-- The physics part of the per-particle closure in `render`,
src/main.rs lines 107-123: optional attraction impulse (guarded at
distance 0.2), then friction `FRICTION_PER_SECOND.powf(delta_time)`,
then the explicit Euler position update. -/
noncomputable def physStep (mouse : Option Mouse) (delta_time : ℝ)
    (particle : Particle) : Particle :=
  let p1 :=
    match mouse with
    | some mouse =>
      let dx := mouse.x - particle.x
      let dy := mouse.y - particle.y
      let distance := Real.sqrt (dx * dx + dy * dy)
      if distance > 0.2 then
        let inv_gravity := GRAVITY_STRENGTH / distance
        { particle with
            dx := particle.dx + dx * inv_gravity * 3.0
            dy := particle.dy + dy * inv_gravity * 3.0 }
      else
        particle
    | none => particle
  let friction := FRICTION_PER_SECOND ^ delta_time
  let p2 := { p1 with dx := p1.dx * friction, dy := p1.dy * friction }
  { p2 with x := p2.x + p2.dx * delta_time, y := p2.y + p2.dy * delta_time }

/-- The colors the program writes into cells: `Color::Black` and
`Color::Rgb(r, g, b)` from ratatui, as used at src/main.rs lines 80-81
and 137-139. -/
inductive Color where
  | black
  | rgb (r g b : ℕ)
deriving DecidableEq, Repr

/-- One character cell of the ratatui `Buffer`: a glyph plus foreground and
background colors (the only cell fields the program touches). -/
structure Cell where
  symbol : String
  fg : Color
  bg : Color
deriving DecidableEq, Repr

/-- The cell grid of a ratatui `Buffer`, indexed by (column, row). -/
abbrev Grid : Type := ℕ → ℕ → Cell

/-- Rust saturating float-to-`u8` cast `v as u8` (truncates toward zero,
clamps to `[0, 255]`), as at src/main.rs lines 132-134. -/
noncomputable def ru8 (v : ℝ) : ℕ :=
  min (Nat.floor (max v 0)) 255

/-- Ratatui `Buffer::cell_mut((x, y))` followed by a mutation of the cell:
the write happens only when the index is inside the `width × height` cell
grid, as at src/main.rs line 135. -/
def cellMut (width height : ℕ) (cx cy : ℕ) (f : Cell → Cell)
    (buf : Grid) : Grid :=
  if cx < width ∧ cy < height then
    fun i j => if i = cx ∧ j = cy then f (buf i j) else buf i j
  else
    buf

/-- The bounds guard of the paint pass, src/main.rs lines 125-128, as a
predicate on the particle:
`particle.x < area.width && particle.y < area.height * 2 &&
particle.x >= 0.0 && particle.y >= 0.0`. -/
def inBounds (width height : ℕ) (p : Particle) : Prop :=
  p.x < (width : ℝ) ∧ p.y < ((height * 2 : ℕ) : ℝ) ∧ 0 ≤ p.x ∧ 0 ≤ p.y

noncomputable instance (width height : ℕ) (p : Particle) :
    Decidable (inBounds width height p) := by
  unfold inBounds
  infer_instance

/-- The paint part of the per-particle closure in `render`,
src/main.rs lines 125-142: bounds guard (`inBounds`), truncating casts to
cell coordinates, the gradient color, and the half-block fg/bg write.
`width` and `height` are `area.width` and `area.height` (cells). -/
noncomputable def paint (width height : ℕ) (buf : Grid)
    (particle : Particle) : Grid :=
  if inBounds width height particle then
    let x := Nat.floor particle.x
    let y := Nat.floor particle.y
    let red := ru8 (particle.x / (width : ℝ) * 255.0 * 0.8)
    let green := ru8 (particle.y / ((height * 2 : ℕ) : ℝ) * 255.0 * 0.8)
    let blue := ru8 (255.0 * 0.6)
    cellMut width height x (y / 2)
      (fun cell =>
        if y % 2 = 0 then { cell with fg := Color.rgb red green blue }
        else { cell with bg := Color.rgb red green blue })
      buf
  else
    buf

/-- The whole body of the `par_iter_mut().for_each(...)` closure in `render`,
src/main.rs lines 106-143: the physics step on the particle followed by the
paint pass of the updated particle into the buffer. -/
noncomputable def renderParticle (mouse : Option Mouse) (delta_time : ℝ)
    (width height : ℕ) (buf : Grid) (p : Particle) : Particle × Grid :=
  let p1 := physStep mouse delta_time p
  (p1, paint width height buf p1)

/-- Iterated friction-only ticks: `physStep` with no attractor applied once
per entry of `dts`, the per-tick elapsed times. -/
noncomputable def ticks (dts : List ℝ) (p : Particle) : Particle :=
  dts.foldl (fun q dt => physStep none dt q) p

/-- Velocity magnitude of a particle, `sqrt(dx² + dy²)`. -/
noncomputable def speed (p : Particle) : ℝ :=
  Real.sqrt (p.dx * p.dx + p.dy * p.dy)

/-- Contract of `rand`'s `rng.gen_range(lo..hi)` (an external collaborator):
draw number `n` on range `lo..hi` lies in the half-open interval `[lo, hi)`.
The generator itself is a parameter `rng : ℕ → ℝ → ℝ → ℝ`. -/
def RngOk (rng : ℕ → ℝ → ℝ → ℝ) : Prop :=
  ∀ n lo hi, lo < hi → lo ≤ rng n lo hi ∧ rng n lo hi < hi

/-- `generate_particles` from src/main.rs lines 48-65.  `height` is the
sub-row height passed by the caller.  The particle count is
`((w * h) as f32 * density) as usize` (a truncating, saturating cast,
modelled by `Nat.floor` of the clamp at 0); particle `i` makes four draws
in order: `x` on `0.0..width`, `y` on `0.0..height`, `dx` and `dy` on
`-1.0..1.0`. -/
noncomputable def generate_particles (rng : ℕ → ℝ → ℝ → ℝ) (density : ℝ)
    (width height : ℕ) : List Particle :=
  let count := Nat.floor (max (((width * height : ℕ) : ℝ) * density) 0)
  (List.range count).map fun i =>
    { x := rng (4 * i) 0 (width : ℝ)
      y := rng (4 * i + 1) 0 (height : ℝ)
      dx := rng (4 * i + 2) (-1.0) 1.0
      dy := rng (4 * i + 3) (-1.0) 1.0 }

/-- `curr_time.saturating_duration_since(sim.time).as_secs_f32()` from
src/main.rs line 72: the elapsed seconds, zero when the clock did not
advance (a `Duration` is never negative). -/
noncomputable def saturating_duration_since (curr prev : ℝ) : ℝ :=
  max (curr - prev) 0

/-- Key codes the program distinguishes at src/main.rs lines 170-179:
the character key `q`, Backspace, and every other key. -/
inductive Key where
  | q
  | backspace
  | otherKey
deriving DecidableEq, Repr

/-- Input events as seen by the match at src/main.rs lines 168-192.
`keyPress` is a key event with `kind == KeyEventKind::Press`; `keyNonPress`
is any other key event kind (filtered out by the guard on line 169).
Mouse events carry the device `(column, row)`. -/
inductive Ev where
  | keyPress (k : Key)
  | keyNonPress (k : Key)
  | mouseDown (col row : ℕ)
  | mouseDrag (col row : ℕ)
  | mouseUp
  | mouseMoved (col row : ℕ)
  | otherEv
deriving DecidableEq, Repr

/-- `struct Simulation` from src/main.rs lines 42-46, without the `time`
field: the clock is handled by the external wall-clock parameter of
`runLoop` (see `saturating_duration_since`). -/
structure SimState where
  particles : List Particle
  mouse : Option Mouse

/-- Event handling of one polled event, src/main.rs lines 168-192, minus the
quit arm (which returns from the loop and is handled in `runLoop`):
Backspace regenerates the particles at the current terminal size
(`width` columns, `rows` rows, sub-row height `rows * 2`); mouse down/drag
sets the attractor at `(column, row * 2)`; mouse up clears it; every other
event leaves the state unchanged. -/
noncomputable def handleEvent (rng : ℕ → ℝ → ℝ → ℝ) (width rows : ℕ) :
    Ev → SimState → SimState
  | Ev.keyPress Key.backspace, s =>
    { s with particles := generate_particles rng DENSITY width (rows * 2) }
  | Ev.mouseDown c r, s =>
    { s with mouse := some ⟨(c : ℝ), ((r * 2 : ℕ) : ℝ)⟩ }
  | Ev.mouseDrag c r, s =>
    { s with mouse := some ⟨(c : ℝ), ((r * 2 : ℕ) : ℝ)⟩ }
  | Ev.mouseUp, s => { s with mouse := none }
  | _, s => s

/-- The `loop` of `run`, src/main.rs lines 160-194, driven by the finite
list of poll outcomes `evs` (`none` is a poll timeout, `some e` a received
event).  The draw call `terminal.draw(...)` — one render-and-integrate
cycle, whose elapsed time comes from the wall clock — is the abstract
parameter `step`; `n` counts the draws performed so far.  The loop returns
`some (finalState, draws)` when it exits — which the source does only via
`return Ok(())` on a `q` key press — and `none` when the poll-outcome list
is exhausted with the loop still running. -/
noncomputable def runLoop (step : SimState → SimState)
    (rng : ℕ → ℝ → ℝ → ℝ) (width rows : ℕ) :
    List (Option Ev) → SimState → ℕ → Option (SimState × ℕ)
  | [], _, _ => none
  | e :: rest, s, n =>
    let s1 := step s
    match e with
    | some (Ev.keyPress Key.q) => some (s1, n + 1)
    | some ev => runLoop step rng width rows rest (handleEvent rng width rows ev s1) (n + 1)
    | none => runLoop step rng width rows rest s1 (n + 1)

/-- The simulation state reached after the loop has processed a list of
poll outcomes none of which quits: each iteration draws (`step`) and then
handles the event, mirroring `runLoop` without the exit arm. -/
noncomputable def loopEvents (step : SimState → SimState)
    (rng : ℕ → ℝ → ℝ → ℝ) (width rows : ℕ) :
    List (Option Ev) → SimState → SimState
  | [], s => s
  | e :: rest, s =>
    let s1 := step s
    match e with
    | some ev => loopEvents step rng width rows rest (handleEvent rng width rows ev s1)
    | none => loopEvents step rng width rows rest s1

/-- Unfolding lemma: a tick with an attractor beyond the 0.2 guard. -/
theorem physStep_some_of_gt (m : Mouse) (dt : ℝ) (p : Particle)
    (h : 0.2 < Real.sqrt ((m.x - p.x) * (m.x - p.x) + (m.y - p.y) * (m.y - p.y))) :
    physStep (some m) dt p =
      (let dist := Real.sqrt ((m.x - p.x) * (m.x - p.x) + (m.y - p.y) * (m.y - p.y))
       let vx := (p.dx + (m.x - p.x) * (GRAVITY_STRENGTH / dist) * 3.0) *
         FRICTION_PER_SECOND ^ dt
       let vy := (p.dy + (m.y - p.y) * (GRAVITY_STRENGTH / dist) * 3.0) *
         FRICTION_PER_SECOND ^ dt
       { x := p.x + vx * dt, y := p.y + vy * dt, dx := vx, dy := vy }) := by
  simp only [physStep]
  rw [if_pos h]

/-- Unfolding lemma: a tick with an attractor inside the 0.2 guard applies
only friction and the Euler step. -/
theorem physStep_some_of_le (m : Mouse) (dt : ℝ) (p : Particle)
    (h : ¬ 0.2 < Real.sqrt ((m.x - p.x) * (m.x - p.x) + (m.y - p.y) * (m.y - p.y))) :
    physStep (some m) dt p =
      { x := p.x + p.dx * FRICTION_PER_SECOND ^ dt * dt
        y := p.y + p.dy * FRICTION_PER_SECOND ^ dt * dt
        dx := p.dx * FRICTION_PER_SECOND ^ dt
        dy := p.dy * FRICTION_PER_SECOND ^ dt } := by
  simp only [physStep]
  rw [if_neg h]

/-- Unfolding lemma: a tick with no attractor applies only friction and the
Euler step. -/
theorem physStep_none_eq (dt : ℝ) (p : Particle) :
    physStep none dt p =
      { x := p.x + p.dx * FRICTION_PER_SECOND ^ dt * dt
        y := p.y + p.dy * FRICTION_PER_SECOND ^ dt * dt
        dx := p.dx * FRICTION_PER_SECOND ^ dt
        dy := p.dy * FRICTION_PER_SECOND ^ dt } := by
  simp only [physStep]

/-- C1: an integrator tick with elapsed time `dt` and an attractor at
distance `dist > 0.2` performs exactly, in order: the impulse
`velocity += (attractor − position) · (GRAVITY_STRENGTH / dist) · 3.0`
(not scaled by `dt`), then friction `velocity *= 0.7 ^ dt`, then
`position += velocity · dt`; with no attractor, or with `dist ≤ 0.2`,
only the friction and position steps apply. -/
theorem physStep_tick_structure (m : Mouse) (dt : ℝ) (p : Particle) :
    (0.2 < Real.sqrt ((m.x - p.x) * (m.x - p.x) + (m.y - p.y) * (m.y - p.y)) →
      physStep (some m) dt p =
        (let dist := Real.sqrt ((m.x - p.x) * (m.x - p.x) + (m.y - p.y) * (m.y - p.y))
         let vx := (p.dx + (m.x - p.x) * (GRAVITY_STRENGTH / dist) * 3.0) *
           FRICTION_PER_SECOND ^ dt
         let vy := (p.dy + (m.y - p.y) * (GRAVITY_STRENGTH / dist) * 3.0) *
           FRICTION_PER_SECOND ^ dt
         { x := p.x + vx * dt, y := p.y + vy * dt, dx := vx, dy := vy })) ∧
    (¬ 0.2 < Real.sqrt ((m.x - p.x) * (m.x - p.x) + (m.y - p.y) * (m.y - p.y)) →
      physStep (some m) dt p =
        { x := p.x + p.dx * FRICTION_PER_SECOND ^ dt * dt
          y := p.y + p.dy * FRICTION_PER_SECOND ^ dt * dt
          dx := p.dx * FRICTION_PER_SECOND ^ dt
          dy := p.dy * FRICTION_PER_SECOND ^ dt }) ∧
    (physStep none dt p =
      { x := p.x + p.dx * FRICTION_PER_SECOND ^ dt * dt
        y := p.y + p.dy * FRICTION_PER_SECOND ^ dt * dt
        dx := p.dx * FRICTION_PER_SECOND ^ dt
        dy := p.dy * FRICTION_PER_SECOND ^ dt }) :=
  ⟨physStep_some_of_gt m dt p, physStep_some_of_le m dt p, physStep_none_eq dt p⟩

/-- Witness for C1 at the spec's end-to-end scenario (attractor `(5,5)`,
particle at `(5, 5.4)` with zero velocity, `dt = 0.1`, distance `0.4`),
and at a coincident attractor (distance `0`, no impulse). -/
theorem physStep_tick_structure_witness :
    (0.2 < Real.sqrt (((5 : ℝ) - 5) * ((5 : ℝ) - 5) +
        ((5 : ℝ) - 5.4) * ((5 : ℝ) - 5.4)) ∧
      physStep (some ⟨5, 5⟩) 0.1 ⟨5, 5.4, 0, 0⟩ =
        (let dist := Real.sqrt (((5 : ℝ) - 5) * ((5 : ℝ) - 5) +
           ((5 : ℝ) - 5.4) * ((5 : ℝ) - 5.4))
         let vx := ((0 : ℝ) + ((5 : ℝ) - 5) * (GRAVITY_STRENGTH / dist) * 3.0) *
           FRICTION_PER_SECOND ^ (0.1 : ℝ)
         let vy := ((0 : ℝ) + ((5 : ℝ) - 5.4) * (GRAVITY_STRENGTH / dist) * 3.0) *
           FRICTION_PER_SECOND ^ (0.1 : ℝ)
         { x := 5 + vx * 0.1, y := 5.4 + vy * 0.1, dx := vx, dy := vy })) ∧
    (¬ 0.2 < Real.sqrt (((1 : ℝ) - 1) * ((1 : ℝ) - 1) +
        ((1 : ℝ) - 1) * ((1 : ℝ) - 1)) ∧
      physStep (some ⟨1, 1⟩) 1 ⟨1, 1, 2, 3⟩ =
        { x := 1 + 2 * FRICTION_PER_SECOND ^ (1 : ℝ) * 1
          y := 1 + 3 * FRICTION_PER_SECOND ^ (1 : ℝ) * 1
          dx := 2 * FRICTION_PER_SECOND ^ (1 : ℝ)
          dy := 3 * FRICTION_PER_SECOND ^ (1 : ℝ) }) := by
  have h1 : 0.2 < Real.sqrt (((5 : ℝ) - 5) * ((5 : ℝ) - 5) +
      ((5 : ℝ) - 5.4) * ((5 : ℝ) - 5.4)) := by
    have : (((5 : ℝ) - 5) * ((5 : ℝ) - 5) + ((5 : ℝ) - 5.4) * ((5 : ℝ) - 5.4)) =
        0.4 ^ 2 := by norm_num
    rw [this, Real.sqrt_sq (by norm_num : (0 : ℝ) ≤ 0.4)]
    norm_num
  have h2 : ¬ 0.2 < Real.sqrt (((1 : ℝ) - 1) * ((1 : ℝ) - 1) +
      ((1 : ℝ) - 1) * ((1 : ℝ) - 1)) := by
    have : (((1 : ℝ) - 1) * ((1 : ℝ) - 1) + ((1 : ℝ) - 1) * ((1 : ℝ) - 1)) =
        (0 : ℝ) := by norm_num
    rw [this, Real.sqrt_zero]
    norm_num
  exact ⟨⟨h1, (physStep_tick_structure ⟨5, 5⟩ 0.1 ⟨5, 5.4, 0, 0⟩).1 h1⟩,
    ⟨h2, (physStep_tick_structure ⟨1, 1⟩ 1 ⟨1, 1, 2, 3⟩).2.1 h2⟩⟩

/-- C2: the attraction impulse is applied iff the distance to the attractor
is strictly greater than 0.2: at distance at most 0.2 the tick coincides
with a tick with no attractor, and above 0.2 the impulse enters the
velocity and the divisor of `GRAVITY_STRENGTH / distance` is nonzero. -/
theorem physStep_singularity_guard (m : Mouse) (dt : ℝ) (p : Particle) :
    (Real.sqrt ((m.x - p.x) * (m.x - p.x) + (m.y - p.y) * (m.y - p.y)) ≤ 0.2 →
      physStep (some m) dt p = physStep none dt p) ∧
    (0.2 < Real.sqrt ((m.x - p.x) * (m.x - p.x) + (m.y - p.y) * (m.y - p.y)) →
      Real.sqrt ((m.x - p.x) * (m.x - p.x) + (m.y - p.y) * (m.y - p.y)) ≠ 0 ∧
      (physStep (some m) dt p).dx =
        (p.dx + (m.x - p.x) * (GRAVITY_STRENGTH /
          Real.sqrt ((m.x - p.x) * (m.x - p.x) + (m.y - p.y) * (m.y - p.y))) * 3.0) *
          FRICTION_PER_SECOND ^ dt ∧
      (physStep (some m) dt p).dy =
        (p.dy + (m.y - p.y) * (GRAVITY_STRENGTH /
          Real.sqrt ((m.x - p.x) * (m.x - p.x) + (m.y - p.y) * (m.y - p.y))) * 3.0) *
          FRICTION_PER_SECOND ^ dt) := by
  constructor
  · intro h
    rw [physStep_some_of_le m dt p (not_lt.mpr h), physStep_none_eq]
  · intro h
    refine ⟨ne_of_gt (lt_trans (by norm_num : (0 : ℝ) < 0.2) h), ?_, ?_⟩ <;>
      rw [physStep_some_of_gt m dt p h]

/-- Witness for C2: a particle at distance exactly 0.2 from the attractor
receives no impulse, and one at distance 0.3 does. -/
theorem physStep_singularity_guard_witness :
    (Real.sqrt (((0 : ℝ) - 0.2) * ((0 : ℝ) - 0.2) +
        ((0 : ℝ) - 0) * ((0 : ℝ) - 0)) ≤ 0.2 ∧
      physStep (some ⟨0, 0⟩) 1 ⟨0.2, 0, 1, 1⟩ = physStep none 1 ⟨0.2, 0, 1, 1⟩) ∧
    (0.2 < Real.sqrt (((0 : ℝ) - 0.3) * ((0 : ℝ) - 0.3) +
        ((0 : ℝ) - 0) * ((0 : ℝ) - 0)) ∧
      Real.sqrt (((0 : ℝ) - 0.3) * ((0 : ℝ) - 0.3) +
        ((0 : ℝ) - 0) * ((0 : ℝ) - 0)) ≠ 0 ∧
      (physStep (some ⟨0, 0⟩) 1 ⟨0.3, 0, 0, 0⟩).dx =
        ((0 : ℝ) + ((0 : ℝ) - 0.3) * (GRAVITY_STRENGTH /
          Real.sqrt (((0 : ℝ) - 0.3) * ((0 : ℝ) - 0.3) +
            ((0 : ℝ) - 0) * ((0 : ℝ) - 0))) * 3.0) * FRICTION_PER_SECOND ^ (1 : ℝ) ∧
      (physStep (some ⟨0, 0⟩) 1 ⟨0.3, 0, 0, 0⟩).dy =
        ((0 : ℝ) + ((0 : ℝ) - 0) * (GRAVITY_STRENGTH /
          Real.sqrt (((0 : ℝ) - 0.3) * ((0 : ℝ) - 0.3) +
            ((0 : ℝ) - 0) * ((0 : ℝ) - 0))) * 3.0) * FRICTION_PER_SECOND ^ (1 : ℝ)) := by
  have e1 : (((0 : ℝ) - 0.2) * ((0 : ℝ) - 0.2) + ((0 : ℝ) - 0) * ((0 : ℝ) - 0)) =
      0.2 ^ 2 := by norm_num
  have h1 : Real.sqrt (((0 : ℝ) - 0.2) * ((0 : ℝ) - 0.2) +
      ((0 : ℝ) - 0) * ((0 : ℝ) - 0)) ≤ 0.2 := by
    rw [e1, Real.sqrt_sq (by norm_num : (0 : ℝ) ≤ 0.2)]
  have e2 : (((0 : ℝ) - 0.3) * ((0 : ℝ) - 0.3) + ((0 : ℝ) - 0) * ((0 : ℝ) - 0)) =
      0.3 ^ 2 := by norm_num
  have h2 : 0.2 < Real.sqrt (((0 : ℝ) - 0.3) * ((0 : ℝ) - 0.3) +
      ((0 : ℝ) - 0) * ((0 : ℝ) - 0)) := by
    rw [e2, Real.sqrt_sq (by norm_num : (0 : ℝ) ≤ 0.3)]
    norm_num
  exact ⟨⟨h1, (physStep_singularity_guard ⟨0, 0⟩ 1 ⟨0.2, 0, 1, 1⟩).1 h1⟩,
    ⟨h2, (physStep_singularity_guard ⟨0, 0⟩ 1 ⟨0.3, 0, 0, 0⟩).2 h2⟩⟩

/-- The friction base is positive. -/
theorem friction_pos : (0 : ℝ) < FRICTION_PER_SECOND := by
  norm_num [FRICTION_PER_SECOND]

/-- Componentwise friction-only decay over a list of ticks: each velocity
component is scaled by `FRICTION_PER_SECOND ^ (total elapsed time)`. -/
theorem ticks_velocity (dts : List ℝ) (p : Particle) :
    (ticks dts p).dx = p.dx * FRICTION_PER_SECOND ^ dts.sum ∧
    (ticks dts p).dy = p.dy * FRICTION_PER_SECOND ^ dts.sum := by
  induction dts generalizing p with
  | nil => simp [ticks, Real.rpow_zero]
  | cons d rest ih =>
    have hstep : ticks (d :: rest) p = ticks rest (physStep none d p) := rfl
    obtain ⟨hx, hy⟩ := ih (physStep none d p)
    rw [hstep, hx, hy, physStep_none_eq, List.sum_cons,
      Real.rpow_add friction_pos]
    constructor <;> ring

/-- Scaling both velocity components by a common nonnegative factor scales
the velocity magnitude by that factor. -/
theorem speed_scale (a b f : ℝ) (hf : 0 ≤ f) :
    Real.sqrt ((a * f) * (a * f) + (b * f) * (b * f)) =
      Real.sqrt (a * a + b * b) * f := by
  have h : (a * f) * (a * f) + (b * f) * (b * f) = (a * a + b * b) * (f * f) := by
    ring
  rw [h, Real.sqrt_mul (add_nonneg (mul_self_nonneg a) (mul_self_nonneg b)),
    Real.sqrt_mul_self hf]

/-- C3: with no attractor, friction is applied on every tick and the
velocity after a sequence of ticks scales each component — and hence the
velocity magnitude — by `FRICTION_PER_SECOND ^ t` where `t` is the total
elapsed time; in particular the decay depends only on the sum of the tick
durations, not on how the time is split across ticks. -/
theorem ticks_friction_only_decay (dts dts' : List ℝ) (p : Particle) :
    ((ticks dts p).dx = p.dx * FRICTION_PER_SECOND ^ dts.sum ∧
     (ticks dts p).dy = p.dy * FRICTION_PER_SECOND ^ dts.sum ∧
     speed (ticks dts p) = speed p * FRICTION_PER_SECOND ^ dts.sum) ∧
    (dts.sum = dts'.sum → speed (ticks dts p) = speed (ticks dts' p)) := by
  have key : ∀ l : List ℝ,
      (ticks l p).dx = p.dx * FRICTION_PER_SECOND ^ l.sum ∧
      (ticks l p).dy = p.dy * FRICTION_PER_SECOND ^ l.sum ∧
      speed (ticks l p) = speed p * FRICTION_PER_SECOND ^ l.sum := by
    intro l
    obtain ⟨hx, hy⟩ := ticks_velocity l p
    refine ⟨hx, hy, ?_⟩
    have hf : (0 : ℝ) ≤ FRICTION_PER_SECOND ^ l.sum :=
      le_of_lt (Real.rpow_pos_of_pos friction_pos _)
    rw [speed, speed, hx, hy, speed_scale _ _ _ hf]
  refine ⟨key dts, fun hsum => ?_⟩
  rw [(key dts).2.2, (key dts').2.2, hsum]

/-- Witness for C3: one 1-second tick and two half-second ticks produce the
same velocity magnitude from the same start. -/
theorem ticks_friction_only_decay_witness :
    ([(1 : ℝ)].sum = [(0.5 : ℝ), 0.5].sum) ∧
    speed (ticks [(1 : ℝ)] ⟨0, 0, 3, 4⟩) =
      speed (ticks [(0.5 : ℝ), 0.5] ⟨0, 0, 3, 4⟩) := by
  have hsum : ([(1 : ℝ)].sum = [(0.5 : ℝ), 0.5].sum) := by
    simp
    norm_num
  exact ⟨hsum,
    (ticks_friction_only_decay [(1 : ℝ)] [(0.5 : ℝ), 0.5] ⟨0, 0, 3, 4⟩).2 hsum⟩

/-- Unfolding lemma: a `cellMut` with an in-range target rewrites exactly
the target cell and leaves every other cell unchanged. -/
theorem cellMut_of_lt (w h cx cy : ℕ) (f : Cell → Cell) (buf : Grid)
    (hcx : cx < w) (hcy : cy < h) (i j : ℕ) :
    cellMut w h cx cy f buf i j =
      if i = cx ∧ j = cy then f (buf i j) else buf i j := by
  unfold cellMut
  rw [if_pos ⟨hcx, hcy⟩]

/-- Unfolding lemma: an out-of-bounds particle leaves the buffer
untouched. -/
theorem paint_out_of_bounds (w h : ℕ) (buf : Grid) (p : Particle)
    (hb : ¬ inBounds w h p) : paint w h buf p = buf := by
  unfold paint
  rw [if_neg hb]

/-- The gradient color of src/main.rs lines 132-134 as one named value:
`Color::Rgb(red, green, blue)` with
`red = (x / width * 255.0 * 0.8) as u8`,
`green = (y / (height * 2) * 255.0 * 0.8) as u8` and
`blue = (255.0 * 0.6) as u8`. -/
noncomputable def gradColor (width height : ℕ) (p : Particle) : Color :=
  Color.rgb (ru8 (p.x / (width : ℝ) * 255.0 * 0.8))
    (ru8 (p.y / ((height * 2 : ℕ) : ℝ) * 255.0 * 0.8))
    (ru8 (255.0 * 0.6))

/-- Unfolding lemma: painting an in-bounds particle is a `cellMut` at the
truncated cell coordinates with the gradient color on the parity-selected
slot. -/
theorem paint_in_bounds_eq (w h : ℕ) (buf : Grid) (p : Particle)
    (hb : inBounds w h p) :
    paint w h buf p =
      cellMut w h (Nat.floor p.x) (Nat.floor p.y / 2)
        (fun cell =>
          if Nat.floor p.y % 2 = 0 then { cell with fg := gradColor w h p }
          else { cell with bg := gradColor w h p })
        buf := by
  unfold paint gradColor
  rw [if_pos hb]

/-- C4: an in-bounds particle paints exactly the cell
`(⌊x⌋, ⌊y / 2⌋)` — the foreground color when `⌊y⌋` is even, the background
color when `⌊y⌋` is odd, leaving every other cell unchanged — and an
out-of-bounds particle mutates no cell of the buffer. -/
theorem paint_maps_single_cell (w h : ℕ) (buf : Grid) (p : Particle) :
    (inBounds w h p →
      (∀ i j, ¬(i = Nat.floor p.x ∧ j = Nat.floor (p.y / 2)) →
        paint w h buf p i j = buf i j) ∧
      (Even (Nat.floor p.y) →
        paint w h buf p (Nat.floor p.x) (Nat.floor (p.y / 2)) =
          { buf (Nat.floor p.x) (Nat.floor (p.y / 2)) with
              fg := gradColor w h p }) ∧
      (¬ Even (Nat.floor p.y) →
        paint w h buf p (Nat.floor p.x) (Nat.floor (p.y / 2)) =
          { buf (Nat.floor p.x) (Nat.floor (p.y / 2)) with
              bg := gradColor w h p })) ∧
    (¬ inBounds w h p → paint w h buf p = buf) := by
  refine ⟨fun hb => ?_, paint_out_of_bounds w h buf p⟩
  obtain ⟨hxw, hyh, hx0, hy0⟩ := hb
  have hb' : inBounds w h p := ⟨hxw, hyh, hx0, hy0⟩
  have hfx : Nat.floor p.x < w := (Nat.floor_lt hx0).mpr hxw
  have hfy : Nat.floor p.y < h * 2 := (Nat.floor_lt hy0).mpr hyh
  have hfy2 : Nat.floor p.y / 2 < h :=
    (Nat.div_lt_iff_lt_mul (by norm_num)).mpr hfy
  have hdiv : Nat.floor (p.y / 2) = Nat.floor p.y / 2 :=
    Nat.floor_div_ofNat p.y 2
  refine ⟨fun i j hij => ?_, fun hev => ?_, fun hodd => ?_⟩
  · rw [paint_in_bounds_eq w h buf p hb',
      cellMut_of_lt w h _ _ _ buf hfx hfy2 i j, if_neg]
    rw [hdiv] at hij
    exact hij
  · rw [paint_in_bounds_eq w h buf p hb', hdiv,
      cellMut_of_lt w h _ _ _ buf hfx hfy2 _ _, if_pos ⟨rfl, rfl⟩]
    simp only [Nat.even_iff.mp hev, if_pos]
  · rw [paint_in_bounds_eq w h buf p hb', hdiv,
      cellMut_of_lt w h _ _ _ buf hfx hfy2 _ _, if_pos ⟨rfl, rfl⟩]
    rw [if_neg]
    rw [Nat.even_iff] at hodd
    exact hodd

/-- Witness for C4 at the spec's rasterizer example: a particle at
`(3.2, 7)` in a 10-column, 5-row (10 sub-row) area lands in cell `(3, 3)`
and, `⌊7⌋` being odd, colors that cell's background; the rest of the
buffer (here all-black) is untouched. -/
theorem paint_maps_single_cell_witness :
    inBounds 10 5 ⟨3.2, 7, 0, 0⟩ ∧
    Nat.floor ((⟨3.2, 7, 0, 0⟩ : Particle).x) = 3 ∧
    Nat.floor ((⟨3.2, 7, 0, 0⟩ : Particle).y / 2) = 3 ∧
    ¬ Even (Nat.floor ((⟨3.2, 7, 0, 0⟩ : Particle).y)) ∧
    paint 10 5 (fun _ _ => ⟨UPPER_BLOCK, Color.black, Color.black⟩)
        ⟨3.2, 7, 0, 0⟩ 3 3 =
      ⟨UPPER_BLOCK, Color.black, gradColor 10 5 ⟨3.2, 7, 0, 0⟩⟩ ∧
    paint 10 5 (fun _ _ => ⟨UPPER_BLOCK, Color.black, Color.black⟩)
        ⟨3.2, 7, 0, 0⟩ 2 3 =
      ⟨UPPER_BLOCK, Color.black, Color.black⟩ := by
  have hb : inBounds 10 5 (⟨3.2, 7, 0, 0⟩ : Particle) := by
    refine ⟨by norm_num, by norm_num, by norm_num, by norm_num⟩
  have hfx : Nat.floor ((⟨3.2, 7, 0, 0⟩ : Particle).x) = 3 := by
    rw [Nat.floor_eq_iff (by norm_num)]
    constructor <;> norm_num
  have hfy : Nat.floor ((⟨3.2, 7, 0, 0⟩ : Particle).y) = 7 := by
    rw [Nat.floor_eq_iff (by norm_num)]
    constructor <;> norm_num
  have hfy2 : Nat.floor ((⟨3.2, 7, 0, 0⟩ : Particle).y / 2) = 3 := by
    rw [Nat.floor_eq_iff (by norm_num)]
    constructor <;> norm_num
  have hodd : ¬ Even (Nat.floor ((⟨3.2, 7, 0, 0⟩ : Particle).y)) := by
    rw [hfy]
    decide
  obtain ⟨hother, _, hbg⟩ :=
    (paint_maps_single_cell 10 5
      (fun _ _ => ⟨UPPER_BLOCK, Color.black, Color.black⟩) ⟨3.2, 7, 0, 0⟩).1 hb
  refine ⟨hb, hfx, hfy2, hodd, ?_, ?_⟩
  · have := hbg hodd
    rw [hfx, hfy2] at this
    exact this
  · have := hother 2 3 (by rw [hfx]; simp)
    exact this

/-- C5: the color painted for an in-bounds particle is
`red = x / width · 255 · 0.8`, `green = y / height_subrows · 255 · 0.8`
and the constant `blue = 255 · 0.6 = 153` (each through the truncating
`u8` cast), computed from coordinates that already coincide with their
clamp into the visible area, so the gradient never samples an
out-of-range value. -/
theorem paint_color_formula (w h : ℕ) (buf : Grid) (p : Particle)
    (hb : inBounds w h p) :
    ((Even (Nat.floor p.y) →
        (paint w h buf p (Nat.floor p.x) (Nat.floor (p.y / 2))).fg =
          Color.rgb (ru8 (p.x / (w : ℝ) * 255.0 * 0.8))
            (ru8 (p.y / ((h * 2 : ℕ) : ℝ) * 255.0 * 0.8))
            (ru8 (255.0 * 0.6))) ∧
      (¬ Even (Nat.floor p.y) →
        (paint w h buf p (Nat.floor p.x) (Nat.floor (p.y / 2))).bg =
          Color.rgb (ru8 (p.x / (w : ℝ) * 255.0 * 0.8))
            (ru8 (p.y / ((h * 2 : ℕ) : ℝ) * 255.0 * 0.8))
            (ru8 (255.0 * 0.6)))) ∧
    (max 0 (min p.x (w : ℝ)) = p.x ∧
      max 0 (min p.y (((h * 2 : ℕ)) : ℝ)) = p.y) ∧
    ru8 (255.0 * 0.6) = 153 := by
  obtain ⟨hxw, hyh, hx0, hy0⟩ := hb
  have hb' : inBounds w h p := ⟨hxw, hyh, hx0, hy0⟩
  have hfx : Nat.floor p.x < w := (Nat.floor_lt hx0).mpr hxw
  have hfy : Nat.floor p.y < h * 2 := (Nat.floor_lt hy0).mpr hyh
  have hfy2 : Nat.floor p.y / 2 < h :=
    (Nat.div_lt_iff_lt_mul (by norm_num)).mpr hfy
  have hdiv : Nat.floor (p.y / 2) = Nat.floor p.y / 2 :=
    Nat.floor_div_ofNat p.y 2
  have hblue : ru8 (255.0 * 0.6) = 153 := by
    unfold ru8
    rw [show max (255.0 * 0.6 : ℝ) 0 = 153 by norm_num]
    rw [show Nat.floor ((153 : ℝ)) = 153 by
      rw [Nat.floor_eq_iff (by norm_num)]; constructor <;> norm_num]
    decide
  refine ⟨⟨fun hev => ?_, fun hodd => ?_⟩,
    ⟨by rw [min_eq_left (le_of_lt hxw), max_eq_right hx0],
     by rw [min_eq_left (le_of_lt hyh), max_eq_right hy0]⟩, hblue⟩
  · rw [paint_in_bounds_eq w h buf p hb', hdiv,
      cellMut_of_lt w h _ _ _ buf hfx hfy2 _ _, if_pos ⟨rfl, rfl⟩,
      if_pos (Nat.even_iff.mp hev)]
    rfl
  · rw [paint_in_bounds_eq w h buf p hb', hdiv,
      cellMut_of_lt w h _ _ _ buf hfx hfy2 _ _, if_pos ⟨rfl, rfl⟩,
      if_neg (by rw [Nat.even_iff] at hodd; exact hodd)]
    rfl

/-- Witness for C5: a particle at `(2.5, 4)` in the 10-column, 5-row area
(`⌊4⌋` even, so the foreground slot) receives exactly the gradient color,
and its coordinates equal their clamp. -/
theorem paint_color_formula_witness :
    inBounds 10 5 ⟨2.5, 4, 0, 0⟩ ∧
    Even (Nat.floor ((⟨2.5, 4, 0, 0⟩ : Particle).y)) ∧
    (paint 10 5 (fun _ _ => ⟨UPPER_BLOCK, Color.black, Color.black⟩)
        ⟨2.5, 4, 0, 0⟩ (Nat.floor ((⟨2.5, 4, 0, 0⟩ : Particle).x))
        (Nat.floor ((⟨2.5, 4, 0, 0⟩ : Particle).y / 2))).fg =
      Color.rgb (ru8 ((⟨2.5, 4, 0, 0⟩ : Particle).x / ((10 : ℕ) : ℝ) * 255.0 * 0.8))
        (ru8 ((⟨2.5, 4, 0, 0⟩ : Particle).y / ((5 * 2 : ℕ) : ℝ) * 255.0 * 0.8))
        (ru8 (255.0 * 0.6)) ∧
    max 0 (min ((⟨2.5, 4, 0, 0⟩ : Particle).x) ((10 : ℕ) : ℝ)) =
      (⟨2.5, 4, 0, 0⟩ : Particle).x ∧
    ru8 (255.0 * 0.6) = 153 := by
  have hb : inBounds 10 5 (⟨2.5, 4, 0, 0⟩ : Particle) :=
    ⟨by norm_num, by norm_num, by norm_num, by norm_num⟩
  have hev : Even (Nat.floor ((⟨2.5, 4, 0, 0⟩ : Particle).y)) := by
    rw [show Nat.floor ((⟨2.5, 4, 0, 0⟩ : Particle).y) = 4 by
      rw [Nat.floor_eq_iff (by norm_num)]; constructor <;> norm_num]
    decide
  obtain ⟨⟨hfg, _⟩, ⟨hclampx, _⟩, hblue⟩ :=
    paint_color_formula 10 5
      (fun _ _ => ⟨UPPER_BLOCK, Color.black, Color.black⟩) ⟨2.5, 4, 0, 0⟩ hb
  exact ⟨hb, hev, hfg hev, hclampx, hblue⟩

/-- The saturating cast in the particle count collapses to the plain
floor, `Nat.floor` of a nonpositive real being zero anyway. -/
theorem floor_max_zero (v : ℝ) : Nat.floor (max v 0) = Nat.floor v := by
  rcases le_total 0 v with hv | hv
  · rw [max_eq_left hv]
  · rw [max_eq_right hv]
    simp [Nat.floor_of_nonpos hv]

/-- The length of the generated field, for any draw source. -/
theorem generate_particles_length (rng : ℕ → ℝ → ℝ → ℝ) (density : ℝ)
    (w h : ℕ) :
    (generate_particles rng density w h).length =
      Nat.floor (((w * h : ℕ) : ℝ) * density) := by
  unfold generate_particles
  rw [List.length_map, List.length_range, floor_max_zero]

/-- C6: generating a field for `w` columns and `h` sub-rows yields exactly
`⌊w · h · density⌋` particles (zero yields the empty field); the count
does not depend on the draws, so a reset at unchanged dimensions leaves
the cardinality unchanged; and whenever the draw source honors the
`gen_range` contract, every particle has position in `[0, w) × [0, h)`
and velocity in `[-1, 1)` per axis. -/
theorem generate_particles_spec (rng : ℕ → ℝ → ℝ → ℝ) (density : ℝ)
    (w h : ℕ) :
    (generate_particles rng density w h).length =
      Nat.floor (((w * h : ℕ) : ℝ) * density) ∧
    (Nat.floor (((w * h : ℕ) : ℝ) * density) = 0 →
      generate_particles rng density w h = []) ∧
    (∀ rng' : ℕ → ℝ → ℝ → ℝ,
      (generate_particles rng' density w h).length =
        (generate_particles rng density w h).length) ∧
    (RngOk rng → ∀ p ∈ generate_particles rng density w h,
      (0 ≤ p.x ∧ p.x < (w : ℝ)) ∧ (0 ≤ p.y ∧ p.y < (h : ℝ)) ∧
      (-1 ≤ p.dx ∧ p.dx < 1) ∧ (-1 ≤ p.dy ∧ p.dy < 1)) := by
  refine ⟨generate_particles_length rng density w h, ?_, ?_, ?_⟩
  · intro h0
    have hlen := generate_particles_length rng density w h
    rw [h0] at hlen
    exact List.length_eq_zero.mp hlen
  · intro rng'
    rw [generate_particles_length rng' density w h,
      generate_particles_length rng density w h]
  · intro hok p hp
    unfold generate_particles at hp
    simp only [List.mem_map, List.mem_range] at hp
    obtain ⟨i, hi, rfl⟩ := hp
    have hcpos : 0 < Nat.floor (max (((w * h : ℕ) : ℝ) * density) 0) :=
      lt_of_le_of_lt (Nat.zero_le i) hi
    have h1 : (1 : ℝ) ≤ max (((w * h : ℕ) : ℝ) * density) 0 :=
      Nat.floor_pos.mp hcpos
    have hv1 : (1 : ℝ) ≤ ((w * h : ℕ) : ℝ) * density := by
      rcases le_max_iff.mp h1 with hc | hc
      · exact hc
      · norm_num at hc
    have hwh : w * h ≠ 0 := by
      intro hz
      rw [hz] at hv1
      norm_num at hv1
    have hwn : 0 < w := by
      rcases Nat.eq_zero_or_pos w with h0 | h0
      · exact absurd (by rw [h0, Nat.zero_mul]) hwh
      · exact h0
    have hhn : 0 < h := by
      rcases Nat.eq_zero_or_pos h with h0 | h0
      · exact absurd (by rw [h0, Nat.mul_zero]) hwh
      · exact h0
    have hw : (0 : ℝ) < (w : ℝ) := by exact_mod_cast hwn
    have hh : (0 : ℝ) < (h : ℝ) := by exact_mod_cast hhn
    refine ⟨hok (4 * i) 0 (w : ℝ) hw, hok (4 * i + 1) 0 (h : ℝ) hh, ?_, ?_⟩
    · have hd := hok (4 * i + 2) (-1.0) 1.0 (by norm_num)
      exact ⟨le_trans (by norm_num) hd.1, lt_of_lt_of_le hd.2 (by norm_num)⟩
    · have hd := hok (4 * i + 3) (-1.0) 1.0 (by norm_num)
      exact ⟨le_trans (by norm_num) hd.1, lt_of_lt_of_le hd.2 (by norm_num)⟩

/-- Witness for C6: the draw source that always returns the low end of the
range honors the `gen_range` contract; a `1 × 1` sub-row field at density 1
holds exactly one particle, which lies in range. -/
theorem generate_particles_spec_witness :
    RngOk (fun _ lo _ => lo) ∧
    (generate_particles (fun _ lo _ => lo) 1 1 1).length =
      Nat.floor (((1 * 1 : ℕ) : ℝ) * (1 : ℝ)) ∧
    ((0 : ℝ) ≤ (⟨0, 0, -1, -1⟩ : Particle).x ∧
      (⟨0, 0, -1, -1⟩ : Particle).x < ((1 : ℕ) : ℝ)) ∧
    ((0 : ℝ) ≤ (⟨0, 0, -1, -1⟩ : Particle).y ∧
      (⟨0, 0, -1, -1⟩ : Particle).y < ((1 : ℕ) : ℝ)) ∧
    ((-1 : ℝ) ≤ (⟨0, 0, -1, -1⟩ : Particle).dx ∧
      (⟨0, 0, -1, -1⟩ : Particle).dx < 1) ∧
    ((-1 : ℝ) ≤ (⟨0, 0, -1, -1⟩ : Particle).dy ∧
      (⟨0, 0, -1, -1⟩ : Particle).dy < 1) := by
  have hok : RngOk (fun _ lo _ => lo) := fun _ lo _ hlt => ⟨le_refl lo, hlt⟩
  have hcount : Nat.floor (max (((1 * 1 : ℕ) : ℝ) * 1) 0) = 1 := by
    rw [show max (((1 * 1 : ℕ) : ℝ) * 1) 0 = 1 by norm_num]
    exact Nat.floor_one
  have hmem : (⟨0, 0, -1, -1⟩ : Particle) ∈
      generate_particles (fun _ lo _ => lo) 1 1 1 := by
    unfold generate_particles
    rw [hcount]
    simp
    norm_num
  obtain ⟨hlen, _, _, hrange⟩ :=
    generate_particles_spec (fun _ lo _ => lo) 1 1 1
  exact ⟨hok, hlen, hrange hok ⟨0, 0, -1, -1⟩ hmem⟩

/-- The Euler position update holds for every tick, whatever the attractor
branch taken: the new position is the old position plus the new velocity
times the elapsed time. -/
theorem physStep_euler (mouse : Option Mouse) (dt : ℝ) (p : Particle) :
    (physStep mouse dt p).x = p.x + (physStep mouse dt p).dx * dt ∧
    (physStep mouse dt p).y = p.y + (physStep mouse dt p).dy * dt := by
  cases mouse with
  | none =>
    rw [physStep_none_eq]
    exact ⟨rfl, rfl⟩
  | some m =>
    by_cases hd : 0.2 < Real.sqrt ((m.x - p.x) * (m.x - p.x) +
        (m.y - p.y) * (m.y - p.y))
    · rw [physStep_some_of_gt m dt p hd]
      exact ⟨rfl, rfl⟩
    · rw [physStep_some_of_le m dt p hd]
      exact ⟨rfl, rfl⟩

/-- C7: positions are never clamped: the per-particle render body updates
the particle exactly by the physics step — attraction, friction and the
Euler position step — for every particle, in-range or not, and a particle
whose updated position is out of range leaves the buffer untouched (it is
skipped only by the paint pass). -/
theorem renderParticle_no_clamp (mouse : Option Mouse) (dt : ℝ) (w h : ℕ)
    (buf : Grid) (p : Particle) :
    ((renderParticle mouse dt w h buf p).1 = physStep mouse dt p) ∧
    ((physStep mouse dt p).x = p.x + (physStep mouse dt p).dx * dt) ∧
    ((physStep mouse dt p).y = p.y + (physStep mouse dt p).dy * dt) ∧
    (¬ inBounds w h (physStep mouse dt p) →
      (renderParticle mouse dt w h buf p).2 = buf) := by
  obtain ⟨hx, hy⟩ := physStep_euler mouse dt p
  exact ⟨rfl, hx, hy, fun hnb =>
    paint_out_of_bounds w h buf (physStep mouse dt p) hnb⟩

/-- Witness for C7: a particle at `x = -5` is outside every area, yet the
render body still applies the physics step to it and leaves the (all-black)
buffer unchanged. -/
theorem renderParticle_no_clamp_witness :
    ¬ inBounds 1 1 (physStep none 0 ⟨-5, 0, 0, 0⟩) ∧
    (renderParticle none 0 1 1
        (fun _ _ => ⟨UPPER_BLOCK, Color.black, Color.black⟩) ⟨-5, 0, 0, 0⟩).1 =
      physStep none 0 ⟨-5, 0, 0, 0⟩ ∧
    (renderParticle none 0 1 1
        (fun _ _ => ⟨UPPER_BLOCK, Color.black, Color.black⟩) ⟨-5, 0, 0, 0⟩).2 =
      (fun _ _ => ⟨UPPER_BLOCK, Color.black, Color.black⟩) := by
  have hnb : ¬ inBounds 1 1 (physStep none 0 ⟨-5, 0, 0, 0⟩) := by
    rw [physStep_none_eq]
    intro hb
    obtain ⟨_, _, hx0, _⟩ := hb
    norm_num at hx0
  obtain ⟨h1, _, _, h4⟩ := renderParticle_no_clamp none 0 1 1
    (fun _ _ => ⟨UPPER_BLOCK, Color.black, Color.black⟩) ⟨-5, 0, 0, 0⟩
  exact ⟨hnb, h1, h4 hnb⟩

/-- Unfolding lemma: an exhausted poll list means the loop is still
running. -/
theorem runLoop_nil_eq (step : SimState → SimState) (rng : ℕ → ℝ → ℝ → ℝ)
    (width rows : ℕ) (s : SimState) (n : ℕ) :
    runLoop step rng width rows [] s n = none := rfl

/-- Unfolding lemma: a poll timeout draws and continues. -/
theorem runLoop_cons_none_eq (step : SimState → SimState)
    (rng : ℕ → ℝ → ℝ → ℝ) (width rows : ℕ) (rest : List (Option Ev))
    (s : SimState) (n : ℕ) :
    runLoop step rng width rows (none :: rest) s n =
      runLoop step rng width rows rest (step s) (n + 1) := rfl

/-- Unfolding lemma: a `q` key press draws and then returns at once. -/
theorem runLoop_cons_quit_eq (step : SimState → SimState)
    (rng : ℕ → ℝ → ℝ → ℝ) (width rows : ℕ) (rest : List (Option Ev))
    (s : SimState) (n : ℕ) :
    runLoop step rng width rows (some (Ev.keyPress Key.q) :: rest) s n =
      some (step s, n + 1) := rfl

/-- Unfolding lemma: a non-quit event draws, is handled, and the loop
continues. -/
theorem runLoop_cons_some_eq (step : SimState → SimState)
    (rng : ℕ → ℝ → ℝ → ℝ) (width rows : ℕ) (ev : Ev)
    (rest : List (Option Ev)) (s : SimState) (n : ℕ)
    (hev : ev ≠ Ev.keyPress Key.q) :
    runLoop step rng width rows (some ev :: rest) s n =
      runLoop step rng width rows rest
        (handleEvent rng width rows ev (step s)) (n + 1) := by
  cases ev with
  | keyPress k =>
    cases k with
    | q => exact absurd rfl hev
    | backspace => rfl
    | otherKey => rfl
  | keyNonPress k => rfl
  | mouseDown c r => rfl
  | mouseDrag c r => rfl
  | mouseUp => rfl
  | mouseMoved c r => rfl
  | otherEv => rfl

/-- The loop keeps running exactly as long as no polled event is a `q`
key press. -/
theorem runLoop_none_iff (step : SimState → SimState)
    (rng : ℕ → ℝ → ℝ → ℝ) (width rows : ℕ) :
    ∀ (evs : List (Option Ev)) (s : SimState) (n : ℕ),
      runLoop step rng width rows evs s n = none ↔
        ∀ e ∈ evs, e ≠ some (Ev.keyPress Key.q) := by
  intro evs
  induction evs with
  | nil =>
    intro s n
    simp [runLoop_nil_eq]
  | cons e rest ih =>
    intro s n
    rcases e with _ | ev
    · rw [runLoop_cons_none_eq, ih]
      simp
    · by_cases hq : ev = Ev.keyPress Key.q
      · subst hq
        rw [runLoop_cons_quit_eq]
        refine ⟨fun h => ?_, fun h => ?_⟩
        · simp at h
        · exact absurd rfl (h _ (List.mem_cons_self _ _))
      · rw [runLoop_cons_some_eq step rng width rows ev rest _ _ hq, ih]
        simp [hq]

/-- After a quit-free prefix, the first `q` key press ends the loop with a
success value: the state is the prefix's draws and handles followed by one
final draw, and the draw count grows by the prefix length plus one —
whatever comes after the quit event contributes nothing. -/
theorem runLoop_first_quit (step : SimState → SimState)
    (rng : ℕ → ℝ → ℝ → ℝ) (width rows : ℕ) :
    ∀ (pre post : List (Option Ev)) (s : SimState) (n : ℕ),
      (∀ e ∈ pre, e ≠ some (Ev.keyPress Key.q)) →
      runLoop step rng width rows
          (pre ++ some (Ev.keyPress Key.q) :: post) s n =
        some (step (loopEvents step rng width rows pre s),
          n + pre.length + 1) := by
  intro pre
  induction pre with
  | nil =>
    intro post s n _
    rw [List.nil_append, runLoop_cons_quit_eq]
    rfl
  | cons e pre ih =>
    intro post s n hpre
    have hhead : e ≠ some (Ev.keyPress Key.q) :=
      hpre e (List.mem_cons_self _ _)
    have htail : ∀ e' ∈ pre, e' ≠ some (Ev.keyPress Key.q) :=
      fun e' he' => hpre e' (List.mem_cons_of_mem _ he')
    have harith : n + 1 + pre.length + 1 = n + (pre.length + 1) + 1 := by
      omega
    rcases e with _ | ev
    · rw [List.cons_append, runLoop_cons_none_eq,
        ih post (step s) (n + 1) htail, harith]
      rfl
    · have hev : ev ≠ Ev.keyPress Key.q := by
        intro hq
        exact hhead (by rw [hq])
      rw [List.cons_append, runLoop_cons_some_eq step rng width rows ev _ _ _ hev,
        ih post (handleEvent rng width rows ev (step s)) (n + 1) htail, harith]
      rfl

/-- C8: the frame loop terminates only on an explicit `q` key press — with
a quit-free poll list it is still running — and when the first quit is
observed the loop returns a success value immediately: it performs exactly
one draw per iteration up to and including the quit iteration and none for
anything after the quit. -/
theorem run_terminates_only_on_quit (step : SimState → SimState)
    (rng : ℕ → ℝ → ℝ → ℝ) (width rows : ℕ) (s : SimState) (n : ℕ) :
    (∀ evs : List (Option Ev),
      runLoop step rng width rows evs s n = none ↔
        ∀ e ∈ evs, e ≠ some (Ev.keyPress Key.q)) ∧
    (∀ pre post : List (Option Ev),
      (∀ e ∈ pre, e ≠ some (Ev.keyPress Key.q)) →
      runLoop step rng width rows
          (pre ++ some (Ev.keyPress Key.q) :: post) s n =
        some (step (loopEvents step rng width rows pre s),
          n + pre.length + 1)) :=
  ⟨fun evs => runLoop_none_iff step rng width rows evs s n,
   fun pre post => runLoop_first_quit step rng width rows pre post s n⟩

/-- Witness for C8: with poll outcomes `[timeout, q-press]` the loop exits
successfully after exactly two draws, and with a single non-quit event it
is still running. -/
theorem run_terminates_only_on_quit_witness :
    runLoop id (fun _ lo _ => lo) 1 1
        [some Ev.otherEv] ⟨[], none⟩ 0 = none ∧
    runLoop id (fun _ lo _ => lo) 1 1
        [none, some (Ev.keyPress Key.q)] ⟨[], none⟩ 0 =
      some (⟨[], none⟩, 2) := by
  have h := run_terminates_only_on_quit id (fun _ lo _ => lo) 1 1 ⟨[], none⟩ 0
  constructor
  · exact (h.1 [some Ev.otherEv]).mpr (by simp)
  · have h2 := h.2 [none] [] (by simp)
    exact h2

/-- C10: the per-tick elapsed time handed to the physics update is computed
by a saturating duration subtraction, so it is never negative, and
consequently the friction factor `FRICTION_PER_SECOND ^ dt` never exceeds
one. -/
theorem delta_time_nonneg (curr prev : ℝ) :
    0 ≤ saturating_duration_since curr prev ∧
    FRICTION_PER_SECOND ^ saturating_duration_since curr prev ≤ 1 := by
  have h0 : 0 ≤ saturating_duration_since curr prev := le_max_right _ _
  exact ⟨h0, Real.rpow_le_one (by norm_num [FRICTION_PER_SECOND])
    (by norm_num [FRICTION_PER_SECOND]) h0⟩

end TPart
